import Mathlib

/-!
Verification of the pagination estimator of `vscode-print-md`.

This development embeds the client-side pagination estimator
`addPageBreakIndicators` from `src/extension.ts` (the script injected in the
print-preview HTML) and proves properties of it.

The JavaScript routine:

* looks up `#content-wrapper`, then `.page-container` inside it, then
  `.content` inside that; a missing `.page-container` causes a silent early
  return, while a missing wrapper makes `wrapper.querySelector` throw;
* computes `pageHeight = 9.5 * 96` pixels, `numPages = ceil(totalHeight /
  pageHeight)` from `content.scrollHeight`;
* runs a loop over page indices `0 .. numPages-1`, threading the mutable
  drift-correction accumulator (`pageBreakMarginTop`, `topMarIncrementer`,
  `topMarIncrementCount`) through the inline closure `nextPageMargin`, and
  appends a marker element to the container for every index except 0.

DOM lookups are modelled by a small record of booleans plus the measured
scroll height; the created marker elements are modelled by the `BreakMarker`
structure recording the attributes and style properties the loop sets.
-/

/-- The mutable drift-correction accumulator of `addPageBreakIndicators`:
`var pageBreakMarginTop = 60; var topMarIncrementer = 96;
var topMarIncrementCount = 0;`. -/
structure MarginState where
  pageBreakMarginTop : Int
  topMarIncrementer : Int
  topMarIncrementCount : Nat
deriving Repr, DecidableEq

/-- Initial accumulator values set just before the marker loop. -/
def initState : MarginState := ⟨60, 96, 0⟩

/-- The inline closure
`let nextPageMargin = (cur, marTop, idx) => { ... }` of the source, as a pure
state transformer.  The first component of the result is the value written to
`cur.style.marginTop` (the `marTop` argument, i.e. the accumulator's
`pageBreakMarginTop` at call time); the second component is the accumulator
after the call:
`topMarIncrementCount++`, then `if (idx > 0) pageBreakMarginTop -=
topMarIncrementer`, then `if (idx >= 2 && topMarIncrementCount >= 5)` reset
the count to 0, decrease `topMarIncrementer` by 56, and
`if (pageBreakMarginTop <= -240)` reset `pageBreakMarginTop` to 0 and
`topMarIncrementer` to 40. -/
def nextPageMargin (s : MarginState) (idx : Nat) : Int × MarginState :=
  let countAfterInc : Nat := s.topMarIncrementCount + 1
  let assignedMarginTop : Int := s.pageBreakMarginTop
  let marginAfterDec : Int :=
    if 0 < idx then s.pageBreakMarginTop - s.topMarIncrementer
    else s.pageBreakMarginTop
  if 2 ≤ idx then
    if 5 ≤ countAfterInc then
      if marginAfterDec ≤ -240 then
        (assignedMarginTop, ⟨0, 40, 0⟩)
      else
        (assignedMarginTop, ⟨marginAfterDec, s.topMarIncrementer - 56, 0⟩)
    else
      (assignedMarginTop, ⟨marginAfterDec, s.topMarIncrementer, countAfterInc⟩)
  else
    (assignedMarginTop, ⟨marginAfterDec, s.topMarIncrementer, countAfterInc⟩)

/-- The accumulator after the call `nextPageMargin(indicator,
pageBreakMarginTop, i)` made by loop iteration `i`. -/
def stepState (s : MarginState) (i : Nat) : MarginState :=
  (nextPageMargin s i).2

/-- Accumulator state at the start of loop iteration `i`, starting the loop
from `initState` as `addPageBreakIndicators` does. -/
def stateAt : Nat → MarginState
  | 0 => initState
  | n + 1 => stepState (stateAt n) n

/-- The `style.marginTop` value assigned to the indicator created at loop
iteration `i`: `nextPageMargin` writes its `marTop` argument, which is
`pageBreakMarginTop` as of the start of the iteration. -/
def marginAt (i : Nat) : Int :=
  (stateAt i).pageBreakMarginTop

/-- The value the guard `topMarIncrementCount >= 5` inspects during loop
iteration `i`: the count has already been incremented (`topMarIncrementCount++`
is the first statement of `nextPageMargin`). -/
def checkedCount (i : Nat) : Nat :=
  (stateAt i).topMarIncrementCount + 1

/-- Loop iteration `i` takes the innermost reset branch
(`pageBreakMarginTop <= -240` after the decrement, inside
`idx >= 2 && topMarIncrementCount >= 5`). -/
def resetFires (i : Nat) : Prop :=
  2 ≤ i ∧ 5 ≤ checkedCount i ∧
    (stateAt i).pageBreakMarginTop - (stateAt i).topMarIncrementer ≤ -240

instance (i : Nat) : Decidable (resetFires i) := by
  unfold resetFires; infer_instance

/-- One indicator `div` as configured by the loop body: the class is always
`page-break-indicator`; `top` is `i * pageHeight` pixels; `data-page` is
`String(i)`; the custom property `--page-number` is `String(i + 1)`;
`marginTop` is the corrective margin written by `nextPageMargin`. -/
structure BreakMarker where
  index : Nat
  topOffsetPx : Int
  marginTopPx : Int
  dataPage : String
  pageNumber : String
deriving Repr, DecidableEq

/-- The indicator element built at loop iteration `i` (before margin
correction is recorded separately): `breakPosition = i * pageHeight`,
`data-page = String(i)`, `--page-number = String(i + 1)`. -/
def mkMarker (ph : Nat) (i : Nat) (margin : Int) : BreakMarker :=
  ⟨i, (i * ph : Nat), margin, toString i, toString (i + 1)⟩

/-- The loop `for (let i = 0; i < numPages; i++) { ... }`, started at index
`i` with `fuel` iterations remaining and accumulator `s`; returns the
indicators appended to the container (`if (i != 0) container.appendChild`). -/
def markersFrom (ph : Nat) : Nat → Nat → MarginState → List BreakMarker
  | 0, _, _ => []
  | fuel + 1, i, s =>
    (if i = 0 then [] else [mkMarker ph i (nextPageMargin s i).1])
      ++ markersFrom ph fuel (i + 1) (nextPageMargin s i).2

/-- Computation `Math.ceil(totalHeight / pageHeight)` for natural `totalHeight` and
positive natural `pageHeight`. -/
def numPagesOf (ph totalHeight : Nat) : Nat :=
  (totalHeight + ph - 1) / ph

/-- Constant `const pageHeight = 9.5 * 96;` — 9.5 inches at 96 DPI. -/
def pageHeight : Nat := 912

/-- The DOM state the routine reads: whether `document.getElementById`
finds `#content-wrapper`, whether `wrapper.querySelector` finds
`.page-container`, whether `container.querySelector` finds `.content`, and
the measured `content.scrollHeight`. -/
structure Dom where
  hasWrapper : Bool
  hasContainer : Bool
  hasContent : Bool
  contentScrollHeight : Nat
deriving Repr, DecidableEq

/-- A JavaScript `TypeError` raised by reading the named property of `null`. -/
inductive JsError where
  | nullDeref : String → JsError
deriving Repr, DecidableEq

/-- Function `addPageBreakIndicators`, parameterised by the page height so that the
page-count contract can be stated for every positive `pageHeightPx` (the
source fixes `ph = pageHeight = 912`).  Mirrors the source's control flow:
`wrapper.querySelector` on a `null` wrapper throws; `if (!container) return;`
is the silent early return; `content.scrollHeight` on a `null` content
throws; otherwise the marker loop runs from `initState` and the appended
markers are returned. -/
def addPageBreakIndicatorsWith (ph : Nat) (dom : Dom) :
    Except JsError (List BreakMarker) :=
  if dom.hasWrapper = false then
    Except.error (JsError.nullDeref "querySelector")
  else if dom.hasContainer = false then
    Except.ok []
  else if dom.hasContent = false then
    Except.error (JsError.nullDeref "scrollHeight")
  else
    Except.ok (markersFrom ph (numPagesOf ph dom.contentScrollHeight) 0 initState)

/-- The estimator as shipped: page height fixed at `9.5 * 96 = 912`. -/
def addPageBreakIndicators (dom : Dom) : Except JsError (List BreakMarker) :=
  addPageBreakIndicatorsWith pageHeight dom

/-! ## Basic lemmas about the embedded program -/

/-- Projection fact: `nextPageMargin` assigns the accumulator's `pageBreakMarginTop` (its
`marTop` argument) to the marker, whatever branch runs afterwards. -/
theorem nextPageMargin_fst (s : MarginState) (i : Nat) :
    (nextPageMargin s i).1 = s.pageBreakMarginTop := by
  simp only [nextPageMargin]
  split_ifs <;> rfl

theorem stateAt_succ (i : Nat) :
    stateAt (i + 1) = (nextPageMargin (stateAt i) i).2 := rfl

/-- The loop tail starting at index `i ≥ 1` with the accumulator it reaches
there yields one marker per remaining index, carrying `marginAt`. -/
theorem markersFrom_stateAt (ph : Nat) :
    ∀ (fuel i : Nat), 1 ≤ i →
      markersFrom ph fuel i (stateAt i)
        = (List.range' i fuel).map fun j => mkMarker ph j (marginAt j) := by
  intro fuel
  induction fuel with
  | zero => intro i _; rfl
  | succ n ih =>
    intro i hi
    rw [List.range'_succ, List.map_cons, markersFrom, if_neg (by omega),
      nextPageMargin_fst, ← stateAt_succ, ih (i + 1) (by omega)]
    rfl

/-- The whole pass over `numPages = n` indices emits exactly the markers of
indices `1 .. n-1`, the marker of index `j` carrying margin `marginAt j`. -/
theorem markersFrom_run (ph n : Nat) :
    markersFrom ph n 0 initState
      = (List.range' 1 (n - 1)).map fun j => mkMarker ph j (marginAt j) := by
  cases n with
  | zero => rfl
  | succ m =>
    have h0 : initState = stateAt 0 := rfl
    rw [h0, markersFrom, if_pos rfl, List.nil_append, ← stateAt_succ,
      markersFrom_stateAt ph m 1 le_rfl, Nat.succ_sub_one]

/-- Rounding-up division `(totalHeight + ph - 1) / ph` is `Math.ceil(totalHeight / ph)`. -/
theorem numPagesOf_eq_ceil (ph h : Nat) (hph : 0 < ph) :
    numPagesOf ph h = Nat.ceil ((h : ℚ) / (ph : ℚ)) := by
  have hq : (0 : ℚ) < (ph : ℚ) := by exact_mod_cast hph
  have hdiv : numPagesOf ph h = h ⌈/⌉ ph := rfl
  apply le_antisymm
  · rw [hdiv, ceilDiv_le_iff_le_mul hph]
    have h1 := Nat.le_ceil ((h : ℚ) / (ph : ℚ))
    rw [div_le_iff₀ hq] at h1
    have h2 : h ≤ Nat.ceil ((h : ℚ) / (ph : ℚ)) * ph := by exact_mod_cast h1
    rw [Nat.mul_comm ph]
    exact h2
  · apply Nat.ceil_le.mpr
    rw [div_le_iff₀ hq]
    have key : h ≤ ph * (h ⌈/⌉ ph) := by
      simpa [smul_eq_mul] using le_smul_ceilDiv hph
    have key2 : h ≤ numPagesOf ph h * ph := by
      rw [hdiv, Nat.mul_comm]
      exact key
    exact_mod_cast key2

/-! ## The drift-correction invariant for long documents

After index 9 is processed, `topMarIncrementer` is `-16` and only ever
decreases further, so every later "decrement" of `pageBreakMarginTop`
increases it; `pageBreakMarginTop` never drops below `-200` again, so the
`-240` reset branch is never taken after index 4. -/

/-- Invariant holding from the start of iteration 10 onwards. -/
def DriftInv (s : MarginState) : Prop :=
  s.topMarIncrementer ≤ -16 ∧ -200 ≤ s.pageBreakMarginTop

instance (s : MarginState) : Decidable (DriftInv s) := by
  unfold DriftInv; infer_instance

theorem stepState_inv (s : MarginState) (i : Nat) (h2 : 2 ≤ i)
    (hs : DriftInv s) :
    DriftInv (stepState s i) ∧
      (stepState s i).pageBreakMarginTop
        = s.pageBreakMarginTop - s.topMarIncrementer := by
  obtain ⟨hinc, htop⟩ := hs
  have h0 : 0 < i := by omega
  simp only [stepState, nextPageMargin, DriftInv, if_pos h0, if_pos h2]
  split_ifs with hB hC
  · exact absurd hC (by omega)
  · refine ⟨⟨?_, ?_⟩, rfl⟩ <;> (dsimp only; omega)
  · refine ⟨⟨?_, ?_⟩, rfl⟩ <;> (dsimp only; omega)

theorem inv_stateAt_add (k : Nat) : DriftInv (stateAt (10 + k)) := by
  induction k with
  | zero => decide
  | succ n ih =>
    exact (stepState_inv (stateAt (10 + n)) (10 + n) (by omega) ih).1

theorem inv_stateAt (i : Nat) (hi : 10 ≤ i) : DriftInv (stateAt i) := by
  have := inv_stateAt_add (i - 10)
  rwa [Nat.add_sub_cancel' hi] at this

/-- From iteration 10 on, each step raises the assigned margin by at least
16 (the incrementer is negative, so the subtraction adds). -/
theorem marginAt_succ_ge (i : Nat) (hi : 10 ≤ i) :
    marginAt i + 16 ≤ marginAt (i + 1) := by
  have hinv := inv_stateAt i hi
  have h := stepState_inv (stateAt i) i (by omega) hinv
  have hstep : stateAt (i + 1) = stepState (stateAt i) i := rfl
  unfold marginAt
  rw [hstep, h.2]
  have := hinv.1
  omega

theorem marginAt_growth (k : Nat) :
    -200 + 16 * (k : Int) ≤ marginAt (10 + k) := by
  induction k with
  | zero => decide
  | succ n ih =>
    have h := marginAt_succ_ge (10 + n) (by omega)
    have hcast : ((n + 1 : Nat) : Int) = (n : Int) + 1 := by push_cast; ring
    have hidx : 10 + (n + 1) = (10 + n) + 1 := rfl
    rw [hidx, hcast]
    omega

theorem marginAt_lower_bound (i : Nat) : -228 ≤ marginAt i := by
  by_cases hi : i < 11
  · exact (by decide : ∀ j, j < 11 → -228 ≤ marginAt j) i hi
  · have := (inv_stateAt i (by omega)).2
    unfold marginAt
    omega

theorem resetFires_iff (i : Nat) : resetFires i ↔ i = 4 := by
  by_cases hi : i < 10
  · exact (by decide : ∀ j, j < 10 → (resetFires j ↔ j = 4)) i hi
  · obtain ⟨hinc, htop⟩ := inv_stateAt i (by omega)
    constructor
    · rintro ⟨-, -, hle⟩
      omega
    · intro h
      omega

/-- On a fully mounted DOM the routine succeeds and returns the markers of
indices `1 .. numPages - 1`, in order, each carrying `marginAt`. -/
theorem addPageBreak_ok (ph h : Nat) :
    addPageBreakIndicatorsWith ph ⟨true, true, true, h⟩
      = Except.ok ((List.range' 1 (numPagesOf ph h - 1)).map
          fun j => mkMarker ph j (marginAt j)) := by
  simp [addPageBreakIndicatorsWith, markersFrom_run]

/-! ## Definitions written from the specification text, for comparison

The spec describes the per-index update (its §4.1 step 2) in sub-steps
(a)–(d): (a) increment `topMarginIncrementCount`; (b) assign the current
`pageBreakMarginTop` to the current marker; (c) if `i > 0` decrement
`pageBreakMarginTop` by `topMarginIncrementer`; (d) if `i ≥ 2` and the count
is ≥ 5, reset the count and decrease the incrementer by 56 — and, in the
full spec text only, a boundary clause: if the resulting
`pageBreakMarginTop ≤ -240`, reset it to 0 and the incrementer to 40. -/

/-- The update rule of steps (a)–(d) exactly as claimed, WITHOUT the `-240`
boundary clause. -/
def specUpdateNoBoundary (s : MarginState) (idx : Nat) : Int × MarginState :=
  let count : Nat := s.topMarIncrementCount + 1
  let assigned : Int := s.pageBreakMarginTop
  let margin : Int :=
    if 0 < idx then s.pageBreakMarginTop - s.topMarIncrementer
    else s.pageBreakMarginTop
  if 2 ≤ idx ∧ 5 ≤ count then
    (assigned, ⟨margin, s.topMarIncrementer - 56, 0⟩)
  else
    (assigned, ⟨margin, s.topMarIncrementer, count⟩)

/-- The update rule of steps (a)–(d) WITH the boundary clause of the spec's
step (d). -/
def specUpdateFull (s : MarginState) (idx : Nat) : Int × MarginState :=
  let count : Nat := s.topMarIncrementCount + 1
  let assigned : Int := s.pageBreakMarginTop
  let margin : Int :=
    if 0 < idx then s.pageBreakMarginTop - s.topMarIncrementer
    else s.pageBreakMarginTop
  if 2 ≤ idx ∧ 5 ≤ count then
    if margin ≤ -240 then
      (assigned, ⟨0, 40, 0⟩)
    else
      (assigned, ⟨margin, s.topMarIncrementer - 56, 0⟩)
  else
    (assigned, ⟨margin, s.topMarIncrementer, count⟩)

/-! ## The claims -/

/-- C1: for every `totalHeightPx ≥ 0` (a natural) and `pageHeightPx > 0`,
the estimator computes `numPages = ceil(totalHeightPx / pageHeightPx)` and
inserts exactly `max(numPages - 1, 0)` markers (natural subtraction), one
for each index `1 ≤ i ≤ numPages - 1` and none for page 0; with
`pageHeightPx = 912`, `totalHeightPx = 2000` this gives `numPages = 3` and
markers of indices 1 and 2, and `totalHeightPx = 0` gives no markers. -/
theorem C1_page_count_and_marker_count :
    (∀ ph h : Nat, 0 < ph →
        numPagesOf ph h = Nat.ceil ((h : ℚ) / (ph : ℚ))
        ∧ ∃ l, addPageBreakIndicatorsWith ph ⟨true, true, true, h⟩ = Except.ok l
            ∧ l.length = numPagesOf ph h - 1
            ∧ l.map BreakMarker.index = List.range' 1 (numPagesOf ph h - 1))
    ∧ numPagesOf 912 2000 = 3
    ∧ (∃ l, addPageBreakIndicators ⟨true, true, true, 2000⟩ = Except.ok l
        ∧ l.map BreakMarker.index = [1, 2])
    ∧ addPageBreakIndicators ⟨true, true, true, 0⟩ = Except.ok [] := by
  refine ⟨?_, by decide, ⟨_, rfl, by decide⟩, rfl⟩
  intro ph h hph
  refine ⟨numPagesOf_eq_ceil ph h hph, _, addPageBreak_ok ph h, ?_, ?_⟩
  · rw [List.length_map, List.length_range']
  · rw [List.map_map]
    have hcomp :
        (BreakMarker.index ∘ fun j => mkMarker ph j (marginAt j)) = id := rfl
    rw [hcomp, List.map_id]

/-- C2 counterexample: on a detached DOM where even `#content-wrapper` is
absent, the routine does NOT silently return — `wrapper.querySelector`
throws a `TypeError` — refuting "silently returns … without raising any
error" and "the routine cannot throw". -/
theorem C2_counterexample :
    addPageBreakIndicators ⟨false, false, false, 0⟩
      = Except.error (JsError.nullDeref "querySelector") := rfl

/-- C2 (amended): the silent no-op covers exactly the case where the wrapper
element exists but `.page-container` is not found under it — then the
routine returns without inserting any marker and without error, whatever the
rest of the DOM holds; when the wrapper itself is absent (fully detached
DOM), the dereference `wrapper.querySelector` throws a `TypeError` instead
of returning silently. -/
theorem C2_missing_container_is_silent_below_wrapper :
    (∀ (c : Bool) (h : Nat),
        addPageBreakIndicators ⟨true, false, c, h⟩ = Except.ok [])
    ∧ (∀ (b c : Bool) (h : Nat),
        addPageBreakIndicators ⟨false, b, c, h⟩
          = Except.error (JsError.nullDeref "querySelector")) :=
  ⟨fun _ _ => rfl, fun _ _ _ => rfl⟩

/-- C3 counterexample: at page index 4 — reached from the initial state with
accumulator `⟨-228, 96, 4⟩` — the code's update is NOT the plain steps
(a)–(d) of the claim: the claimed rule leaves `pageBreakMarginTop = -324`,
while the code's `-240` boundary clause resets it to 0. -/
theorem C3_counterexample :
    stateAt 4 = ⟨-228, 96, 4⟩
    ∧ nextPageMargin (stateAt 4) 4 ≠ specUpdateNoBoundary (stateAt 4) 4
    ∧ (nextPageMargin (stateAt 4) 4).2.pageBreakMarginTop = 0
    ∧ (specUpdateNoBoundary (stateAt 4) 4).2.pageBreakMarginTop = -324 := by
  decide

/-- C3 (amended): starting from `pageBreakMarginTop = 60`,
`topMarginIncrementer = 96`, `topMarginIncrementCount = 0`, the update for
each index is exactly steps (a)–(d) TOGETHER WITH the boundary sub-step of
(d): when the decremented margin is ≤ -240 at a firing check, the margin
resets to 0 and the incrementer to 40. -/
theorem C3_update_rule :
    initState = ⟨60, 96, 0⟩
    ∧ ∀ (s : MarginState) (idx : Nat),
        nextPageMargin s idx = specUpdateFull s idx := by
  refine ⟨rfl, fun s idx => ?_⟩
  simp only [nextPageMargin, specUpdateFull]
  split_ifs <;> first | rfl | tauto

/-- C4: whenever the check at an index `i ≥ 2` with the count having just
reached 5 finds the decremented `pageBreakMarginTop` at or below -240, the
accumulator is reset to `pageBreakMarginTop = 0`, `topMarIncrementer = 40`
(and count 0); this fires in the actual pass at index 4, and consequently
`pageBreakMarginTop` stays bounded below (never under -228) throughout every
pass, however many pages the document has. -/
theorem C4_boundary_reset_and_bounded_below :
    (∀ (s : MarginState) (i : Nat),
        2 ≤ i → 5 ≤ s.topMarIncrementCount + 1 →
        s.pageBreakMarginTop - s.topMarIncrementer ≤ -240 →
        (nextPageMargin s i).2 = ⟨0, 40, 0⟩)
    ∧ stateAt 4 = ⟨-228, 96, 4⟩
    ∧ (nextPageMargin (stateAt 4) 4).2 = ⟨0, 40, 0⟩
    ∧ ∀ i, -228 ≤ (stateAt i).pageBreakMarginTop := by
  refine ⟨?_, by decide, by decide, fun i => marginAt_lower_bound i⟩
  intro s i h2 h5 hm
  have h0 : 0 < i := by omega
  simp only [nextPageMargin, if_pos h0, if_pos h2, if_pos h5, if_pos hm]

/-- C5 counterexample: the reset check run during iteration 2 compares the
already-incremented count, which is 3 there, not 2 as the claim states. -/
theorem C5_counterexample : checkedCount 2 = 3 ∧ ¬ checkedCount 2 = 2 := by
  decide

/-- C5 (amended): the trace from the initial state assigns margin 60 at
index 0 (emitting no marker), 60 at index 1 (after which the accumulator is
decremented to -36), and -36 at index 2; the reset check at index 2 sees the
count already incremented from 2 to 3 and does not trigger since it is below
5; in particular the incrementer is still 96 and the count 3 entering
index 3. -/
theorem C5_trace :
    marginAt 0 = 60
    ∧ (∀ n, (0 : Nat) ∉ (markersFrom pageHeight n 0 initState).map BreakMarker.index)
    ∧ marginAt 1 = 60
    ∧ (stateAt 2).pageBreakMarginTop = -36
    ∧ marginAt 2 = -36
    ∧ (stateAt 2).topMarIncrementCount = 2
    ∧ checkedCount 2 = 3
    ∧ ¬ 5 ≤ checkedCount 2
    ∧ ¬ resetFires 2
    ∧ stateAt 3 = ⟨-132, 96, 3⟩ := by
  refine ⟨by decide, ?_, by decide, by decide, by decide, by decide,
    by decide, by decide, by decide, by decide⟩
  intro n
  rw [markersFrom_run, List.map_map]
  have hcomp :
      (BreakMarker.index ∘ fun j => mkMarker pageHeight j (marginAt j)) = id := rfl
  rw [hcomp, List.map_id]
  intro hmem
  have := List.mem_range'_1.mp hmem
  omega

/-- C6: every emitted marker's raw offset is `index × pageHeight` with
`pageHeight` the constant `912 = 9.5 × 96` (9.5in at 96 DPI), and the
corrective `marginTopPx` is carried as a separate field in addition to that
absolute offset, never replacing it — concretely, for a 2000px document the
markers have offsets 912 and 1824 while their margins are 60 and -36. -/
theorem C6_offset_is_index_times_page_height :
    pageHeight = 912
    ∧ (pageHeight : ℚ) = 9.5 * 96
    ∧ (∀ n, ∀ m ∈ markersFrom pageHeight n 0 initState,
        m.topOffsetPx = (m.index : Int) * (pageHeight : Int)
          ∧ m.marginTopPx = marginAt m.index)
    ∧ (∃ l, addPageBreakIndicators ⟨true, true, true, 2000⟩ = Except.ok l
        ∧ l.map BreakMarker.topOffsetPx = [912, 1824]
        ∧ l.map BreakMarker.marginTopPx = [60, -36]) := by
  refine ⟨rfl, by norm_num [pageHeight], ?_, ⟨_, rfl, by decide, by decide⟩⟩
  intro n m hm
  rw [markersFrom_run] at hm
  obtain ⟨j, hj, rfl⟩ := List.mem_map.mp hm
  refine ⟨?_, rfl⟩
  show ((j * pageHeight : Nat) : Int) = (j : Int) * (pageHeight : Int)
  push_cast
  ring

/-- C7: the marker sequence is a pure function of the page-index sequence —
two runs on mounted DOMs whose heights yield the same page count produce
identical outputs (bit-identical markers); the emitted margin sequence is
exactly `marginAt` over indices `1 .. numPages-1` because the accumulator is
re-initialised on every invocation; and re-running on the identical DOM
yields the identical result (no clock, randomness or surviving state in the
embedding). -/
theorem C7_determinism_and_purity :
    (∀ d d' : Dom,
        d.hasWrapper = true → d.hasContainer = true → d.hasContent = true →
        d'.hasWrapper = true → d'.hasContainer = true → d'.hasContent = true →
        numPagesOf pageHeight d.contentScrollHeight
          = numPagesOf pageHeight d'.contentScrollHeight →
        addPageBreakIndicators d = addPageBreakIndicators d')
    ∧ (∀ (h : Nat) (l : List BreakMarker),
        addPageBreakIndicators ⟨true, true, true, h⟩ = Except.ok l →
        l.map BreakMarker.marginTopPx
          = (List.range' 1 (numPagesOf pageHeight h - 1)).map marginAt)
    ∧ addPageBreakIndicators ⟨true, true, true, 2000⟩
        = addPageBreakIndicators ⟨true, true, true, 2100⟩ := by
  refine ⟨?_, ?_, rfl⟩
  · intro d d' hw hc ht hw' hc' ht' hn
    obtain ⟨w, c, t, hgt⟩ := d
    obtain ⟨w', c', t', hgt'⟩ := d'
    simp only at hw hc ht hw' hc' ht' hn
    subst hw hc ht hw' hc' ht'
    simp [addPageBreakIndicators, addPageBreakIndicatorsWith, hn]
  · intro h l hl
    rw [addPageBreakIndicators, addPageBreak_ok] at hl
    obtain rfl : _ = l := (Except.ok.injEq _ _).mp hl
    rw [List.map_map]
    rfl

/-- C8: every emitted marker carries `data-page = String(index)` (its
0-based index), the custom property `--page-number = String(index + 1)`
(1-based, for the label), the CSS `top` offset `index × pageHeight`, and the
corrective top margin; the markers appear in strictly ascending index order
starting at 1, so insertion order is display order. -/
theorem C8_marker_attributes_and_order :
    (∀ (h : Nat) (l : List BreakMarker),
        addPageBreakIndicators ⟨true, true, true, h⟩ = Except.ok l →
        l.map BreakMarker.index = List.range' 1 (numPagesOf pageHeight h - 1)
        ∧ List.Pairwise (· < ·) (l.map BreakMarker.index)
        ∧ ∀ m ∈ l,
            1 ≤ m.index
            ∧ m.dataPage = toString m.index
            ∧ m.pageNumber = toString (m.index + 1)
            ∧ m.topOffsetPx = (m.index : Int) * (pageHeight : Int)
            ∧ m.marginTopPx = marginAt m.index)
    ∧ (∃ l, addPageBreakIndicators ⟨true, true, true, 2000⟩ = Except.ok l
        ∧ l.map BreakMarker.index = [1, 2]
        ∧ l.map BreakMarker.dataPage = ["1", "2"]
        ∧ l.map BreakMarker.pageNumber = ["2", "3"]) := by
  refine ⟨?_, ⟨_, rfl, by decide, by decide, by decide⟩⟩
  intro h l hl
  rw [addPageBreakIndicators, addPageBreak_ok] at hl
  obtain rfl : _ = l := (Except.ok.injEq _ _).mp hl
  have hmap : (List.map (fun j => mkMarker pageHeight j (marginAt j))
        (List.range' 1 (numPagesOf pageHeight h - 1))).map BreakMarker.index
      = List.range' 1 (numPagesOf pageHeight h - 1) := by
    rw [List.map_map]
    have hcomp :
        (BreakMarker.index ∘ fun j => mkMarker pageHeight j (marginAt j)) = id := rfl
    rw [hcomp, List.map_id]
  refine ⟨hmap, ?_, ?_⟩
  · rw [hmap]
    exact List.pairwise_lt_range' 1 _ 1 Nat.one_pos
  · intro m hm
    obtain ⟨j, hj, rfl⟩ := List.mem_map.mp hm
    have hj1 := (List.mem_range'_1.mp hj).1
    refine ⟨hj1, rfl, rfl, ?_, rfl⟩
    show ((j * pageHeight : Nat) : Int) = (j : Int) * (pageHeight : Int)
    push_cast
    ring

/-- C9: after index 9 is processed the incrementer is `40 - 56 = -16` and
stays negative, so every later "decrement" of the accumulator increases it:
the assigned margins are strictly increasing from index 10 on, the `-240`
reset fires exactly while processing index 4 and never again, and the margin
grows without bound as the page count grows. -/
theorem C9_negative_incrementer_growth :
    (stateAt 10).topMarIncrementer = -16
    ∧ (∀ i, 10 ≤ i → marginAt i < marginAt (i + 1))
    ∧ (∀ i, resetFires i ↔ i = 4)
    ∧ (∀ B : Int, ∃ i, B < marginAt i)
    ∧ marginAt 10 = -200 ∧ marginAt 11 = -184 := by
  refine ⟨by decide, ?_, resetFires_iff, ?_, by decide, by decide⟩
  · intro i hi
    have := marginAt_succ_ge i hi
    omega
  · intro B
    refine ⟨10 + (B + 201).toNat, ?_⟩
    have hg := marginAt_growth (B + 201).toNat
    omega

/-- C10: in every run the margin assigned to any emitted marker is at least
-228 (and in particular strictly above the -240 threshold): the accumulator
reaches -324 only transiently inside iteration 4 — as the decremented value
the boundary check inspects — and is reset to 0 within that same iteration,
before any later marker receives it. -/
theorem C10_no_emitted_margin_below_neg228 :
    (stateAt 4).pageBreakMarginTop - (stateAt 4).topMarIncrementer = -324
    ∧ resetFires 4
    ∧ stateAt 5 = ⟨0, 40, 0⟩
    ∧ marginAt 5 = 0
    ∧ (∀ i, -228 ≤ marginAt i)
    ∧ (∀ n, ∀ m ∈ markersFrom pageHeight n 0 initState,
        -228 ≤ m.marginTopPx ∧ -240 < m.marginTopPx) := by
  refine ⟨by decide, by decide, by decide, by decide, marginAt_lower_bound, ?_⟩
  intro n m hm
  rw [markersFrom_run] at hm
  obtain ⟨j, hj, rfl⟩ := List.mem_map.mp hm
  have hb := marginAt_lower_bound j
  have hm' : (mkMarker pageHeight j (marginAt j)).marginTopPx = marginAt j := rfl
  rw [hm']
  exact ⟨hb, by omega⟩
